import Mathlib

/-!
Verification of the command-line parsing and action-dispatch framework of
`ts-command-line` (`CommandLineParser.ts`) and the external-command helper
`Utilities.executeCommand`.

The TypeScript source is embedded shallowly:

* JavaScript exceptions become the inductive `JsError`; the subclass
  `CommandLineParserExitError` is the constructor `JsError.exitError`.
* `process.exitCode`, `console.log` and `console.error` become the explicit
  state record `StdState` (`exitCode : Option Int` models the initially
  undefined `process.exitCode`; JavaScript truthiness of a numeric exit code
  is `jsTruthyCode`).
* The external `argparse` grammar engine (`parseArgs`, `printHelp`,
  `process.argv`) and the selected action's asynchronous body are abstracted
  as the record `Engine`.  A settled promise outcome is `Except JsError Unit`;
  a rejected promise is `Except.error`.
* `executeWithoutErrorHandling`'s `try`/`catch` only guards the synchronous
  phase (argument defaulting, help printing, `parseArgs`, data processing,
  dispatch); the promise returned by `onExecute()` is returned from inside the
  `try`, so its rejection is NOT routed through the `catch`.  The embedding
  mirrors this: the action body's outcome is returned directly.
-/

/-- A JavaScript exception as thrown/caught by `CommandLineParser`:
either a `CommandLineParserExitError` (an exit code plus a message) or any
other `Error` (identified only by its `message`, which is all the catch
blocks inspect). -/
inductive JsError where
  | exitError (exitCode : Int) (message : String)
  | ordinary (message : String)
deriving DecidableEq, Repr

/-- The observable process state: lines written to standard output, lines
written to standard error, and `process.exitCode` (`none` = still undefined). -/
structure StdState where
  stdout : List String := []
  stderr : List String := []
  exitCode : Option Int := none
deriving DecidableEq, Repr

/-- JavaScript truthiness of `process.exitCode`: `!process.exitCode` is true
exactly when the code is undefined or `0`. -/
def jsTruthyCode : Option Int → Bool
  | none => false
  | some c => c != 0

/-- A raw parsed value as produced by the grammar engine for one parameter. -/
inductive RawValue where
  | bool (b : Bool)
  | str (s : String)
  | int (n : Int)
  | strList (l : List String)
deriving DecidableEq, Repr

/-- `ICommandLineParserData`: the flat map of parsed raw values returned by
`argparse.parseArgs`, keyed by parameter name, plus the `action` field filled
by the sub-command selector (`dest: 'action'`). -/
structure ICommandLineParserData where
  action : String
  values : List (String × RawValue) := []
deriving DecidableEq, Repr

/-- Lookup in the raw parsed-value map. -/
def lookupRaw : List (String × RawValue) → String → Option RawValue
  | [], _ => none
  | (k, v) :: rest, name => if k = name then some v else lookupRaw rest name

/-- Modelled from the spec: `CommandLineAction` (its source file is not under
`src/`).  An action is a named sub-command; `aid` stands for the JavaScript
object identity of the instance, and `data` is the engine's raw parsed-value
map injected once, at dispatch time, by the action's `_processParsedData`
(the private mutation point described in the spec). -/
structure CommandLineAction where
  actionName : String
  aid : Nat
  data : Option ICommandLineParserData := none
deriving DecidableEq, Repr

/-- Modelled from the spec: the Parameter Capability's flag-parameter handle
read (`CommandLineParameterProvider` is not under `src/`).  The handle's value
is unreadable until parsing has completed for the owning instance — reading it
before that point signals a usage fault; afterwards it reports the typed value
converted from the engine's raw parsed-value map (a flag not present in the
map reads `false`). -/
def flagParameterValue (a : CommandLineAction) (name : String) : Except JsError Bool :=
  match a.data with
  | none => .error (.ordinary "The value cannot be read before the command line has been parsed")
  | some d =>
      match lookupRaw d.values name with
      | some (.bool b) => .ok b
      | _ => .ok false

/-- `CommandLineParser`'s instance fields: the ordered action registry
`_actions`, the JavaScript `Map` `_actionsByName`, the write-once
`selectedAction`, the parser's own parsed data (populated by its
`_processParsedData`), and the `_executed` flag. -/
structure CommandLineParser where
  toolFilename : String
  toolDescription : String
  selectedAction : Option CommandLineAction := none
  actions : List CommandLineAction := []
  actionsByName : List (String × CommandLineAction) := []
  globalData : Option ICommandLineParserData := none
  executed : Bool := false
deriving DecidableEq, Repr

/-- A freshly constructed `CommandLineParser`: empty registry, nothing
selected, not yet executed. -/
def newParser (toolFilename toolDescription : String) : CommandLineParser :=
  { toolFilename := toolFilename, toolDescription := toolDescription }

/-- JavaScript `Map.set` semantics: if the key is present its entry is
overwritten in place, otherwise the pair is appended. -/
def jsMapSet (m : List (String × CommandLineAction)) (k : String)
    (v : CommandLineAction) : List (String × CommandLineAction) :=
  match m with
  | [] => [(k, v)]
  | (k0, v0) :: rest =>
      if k0 = k then (k, v) :: rest else (k0, v0) :: jsMapSet rest k v

/-- JavaScript `Map.get` semantics: the value stored under the key, or
`undefined` (`none`). -/
def jsMapGet (m : List (String × CommandLineAction)) (k : String) :
    Option CommandLineAction :=
  match m with
  | [] => none
  | (k0, v0) :: rest => if k0 = k then some v0 else jsMapGet rest k

/-- `CommandLineParser.addAction`: builds the action's sub-parser (the
grammar-slot assignment happens in the external `argparse` engine and is not
observable on the fields modelled here), pushes the action onto `_actions`,
and sets the `_actionsByName` map entry.  The source performs no
duplicate-name check. -/
def addAction (p : CommandLineParser) (a : CommandLineAction) : CommandLineParser :=
  { p with
      actions := p.actions ++ [a],
      actionsByName := jsMapSet p.actionsByName a.actionName a }

/-- Registration of a whole list of actions, in order. -/
def addActions (p : CommandLineParser) (l : List CommandLineAction) : CommandLineParser :=
  l.foldl addAction p

/-- `CommandLineParser.tryGetAction`: `Map.get` on `_actionsByName`. -/
def tryGetAction (p : CommandLineParser) (actionName : String) :
    Option CommandLineAction :=
  jsMapGet p.actionsByName actionName

/-- `CommandLineParser.getAction`: `tryGetAction`, throwing
`Error("The action \x7bname\x7d was not defined")` when absent. -/
def getAction (p : CommandLineParser) (actionName : String) :
    Except JsError CommandLineAction :=
  match tryGetAction p actionName with
  | none => .error (.ordinary ("The action \"" ++ actionName ++ "\" was not defined"))
  | some a => .ok a

/-- The abstracted environment: `process.argv.slice(2)`, the text printed by
`argparse`'s `printHelp`, the grammar engine's `parseArgs` (which returns
parsed data or throws — `CustomArgumentParser` turns `exit`/`error` calls into
`CommandLineParserExitError`s), and the selected action's asynchronous body
(`onExecute` awaits `selectedAction._execute()`), which may touch the process
state and settle fulfilled or rejected. -/
structure Engine where
  processArgv : List String
  helpText : String
  parseArgs : List String → Except JsError ICommandLineParserData
  runAction : CommandLineAction → StdState → StdState × Except JsError Unit

/-- Argument defaulting: `if (!args) { args = process.argv.slice(2); }`. -/
def resolveArgs (E : Engine) (argsOpt : Option (List String)) : List String :=
  match argsOpt with
  | none => E.processArgv
  | some a => a

/-- The dispatch loop of `executeWithoutErrorHandling`: the first action in
`_actions` whose `actionName` equals the parsed `data.action` (the loop
breaks on the first match). -/
def findFirstAction : List CommandLineAction → String → Option CommandLineAction
  | [], _ => none
  | a :: rest, name =>
      if a.actionName = name then some a else findFirstAction rest name

/-- The mutation performed by the dispatch loop on the registry: the first
matching action receives the parsed data (`action._processParsedData(data)`,
modelled from the spec as injecting the engine's raw parsed-value map); later
actions are untouched because the loop breaks. -/
def injectFirst : List CommandLineAction → String → ICommandLineParserData →
    List CommandLineAction
  | [], _, _ => []
  | a :: rest, name, d =>
      if a.actionName = name then { a with data := some d } :: rest
      else a :: injectFirst rest name d

/-- The message of the usage fault thrown on re-execution. -/
def alreadyExecutedMessage : String :=
  "execute() was already called for this parser instance"

/-- The `catch` block of `executeWithoutErrorHandling`: a
`CommandLineParserExitError` whose `exitCode` is falsy (0) is a non-error
exit — its message, if truthy, is written to standard output and the promise
resolves; every other caught error is returned as `Promise.reject(err)`. -/
def catchClause (st : StdState) (e : JsError) : StdState × Except JsError Unit :=
  match e with
  | .exitError code msg =>
      if code = 0 then
        (if msg ≠ "" then { st with stdout := st.stdout ++ [msg] } else st, .ok ())
      else (st, .error (.exitError code msg))
  | .ordinary msg => (st, .error (.ordinary msg))

/-- The tail of the `try` block of `executeWithoutErrorHandling`, after
`parseArgs` has accepted the arguments and `this._processParsedData(data)`
has populated the parser's global values: the dispatch loop (first matching
action is recorded as `selectedAction` and receives the parsed data), the
`!this.selectedAction` check (whose `throw new Error('Unrecognized action')`
goes through the `catch` block), and `onExecute()`, whose promise is returned
from inside the `try` so that its rejection bypasses the `catch`. -/
def dispatchAndRun (E : Engine) (p2 : CommandLineParser) (st : StdState)
    (data : ICommandLineParserData) :
    CommandLineParser × StdState × Except JsError Unit :=
  let p3 :=
    match findFirstAction p2.actions data.action with
    | some a =>
        { p2 with
            selectedAction := some { a with data := some data },
            actions := injectFirst p2.actions data.action data }
    | none => p2
  match p3.selectedAction with
  | none =>
      let r := catchClause st (.ordinary "Unrecognized action")
      (p3, r.1, r.2)
  | some sel =>
      let r := E.runAction sel st
      (p3, r.1, r.2)

/-- `CommandLineParser.executeWithoutErrorHandling`, as a function from the
parser, the process state and the optional argument vector to the updated
parser, the updated state and the settled outcome of the returned promise.

The `try` block: re-entry check, setting `_executed`, argument defaulting,
the empty-arguments help path, `parseArgs`, `this._processParsedData(data)`
(modelled from the spec: populates the parser's global Parsed Parameter
Values; it is a pure conversion of already-parsed data and does not throw),
then `dispatchAndRun`.  Synchronous throws go through `catchClause`. -/
def executeWithoutErrorHandling (E : Engine) (p : CommandLineParser)
    (st : StdState) (argsOpt : Option (List String)) :
    CommandLineParser × StdState × Except JsError Unit :=
  if p.executed then
    -- `throw new Error('execute() was already called…')`: caught by the
    -- catch block, not an exit error, hence `Promise.reject(err)`.
    (p, st, .error (.ordinary alreadyExecutedMessage))
  else
    let p1 := { p with executed := true }
    let args := resolveArgs E argsOpt
    if args.length = 0 then
      (p1, { st with stdout := st.stdout ++ [E.helpText] }, .ok ())
    else
      match E.parseArgs args with
      | .error e =>
          let r := catchClause st e
          (p1, r.1, r.2)
      | .ok data =>
          dispatchAndRun E { p1 with globalData := some data } st data

/-- ANSI red wrapping applied by `colors.red`. -/
def colorsRed (s : String) : String := "\x1b[31m" ++ s ++ "\x1b[39m"

/-- JavaScript's `String.prototype.trim()`: whitespace stripped from both
ends. -/
def jsTrim (s : String) : String :=
  ⟨((s.data.dropWhile Char.isWhitespace).reverse.dropWhile Char.isWhitespace).reverse⟩

/-- The `.catch` handler of `execute`, applied to the settled outcome of
`executeWithoutErrorHandling`: fulfilment maps to `true`; a
`CommandLineParserExitError` has its truthy message written to standard error
and its code stored in `process.exitCode` unless a truthy code is already
there; any other error yields the red `Error: …` line (with the
`'An unknown error occurred'` fallback and `.trim()`) and exit code 1 under
the same rule; both rejections map to `false`. -/
def executeCatch (p : CommandLineParser) (st : StdState)
    (r : Except JsError Unit) : CommandLineParser × StdState × Bool :=
  match r with
  | .ok _ => (p, st, true)
  | .error (.exitError code msg) =>
      let st1 := if msg ≠ "" then { st with stderr := st.stderr ++ [msg] } else st
      let st2 := if jsTruthyCode st1.exitCode then st1
                 else { st1 with exitCode := some code }
      (p, st2, false)
  | .error (.ordinary msg) =>
      let m := jsTrim (if msg = "" then "An unknown error occurred" else msg)
      let st1 := { st with stderr := st.stderr ++ [colorsRed ("Error: " ++ m)] }
      let st2 := if jsTruthyCode st1.exitCode then st1
                 else { st1 with exitCode := some 1 }
      (p, st2, false)

/-- `CommandLineParser.execute`: `executeWithoutErrorHandling` followed by the
`.then`/`.catch` chain (`executeCatch`).  The handler always returns a value,
so the resulting promise always resolves, to the `Bool` in the third
component. -/
def execute (E : Engine) (p : CommandLineParser) (st : StdState)
    (argsOpt : Option (List String)) : CommandLineParser × StdState × Bool :=
  executeCatch (executeWithoutErrorHandling E p st argsOpt).1
    (executeWithoutErrorHandling E p st argsOpt).2.1
    (executeWithoutErrorHandling E p st argsOpt).2.2

/-- The field of `SpawnSyncReturns` inspected by `Utilities.executeCommand`:
the `error` property of a failed spawn, of which only `errno` is read. -/
structure SpawnError where
  errno : Option String := none
  eid : Nat := 0
deriving DecidableEq, Repr

/-- The fault channel of `Utilities.executeCommand`: either the `TypeError`
raised by reading `.errno` off an `undefined` `result.error`, or the spawn
error rethrown by `throw result.error`. -/
inductive ExecCommandFault where
  | typeError
  | spawnError (e : SpawnError)
deriving DecidableEq, Repr

/-- `Utilities.executeCommand` (the synchronous helper), abstracted over the
behaviour of `child_process.spawnSync` as a map from the command string to
the `error` property of its result (`none` = the spawn result carries no
error).  The source reads `(result.error as any).errno` without first
checking that `result.error` exists, retries with the `.cmd` suffix exactly
when that `errno` is `'ENOENT'`, and finally throws `result.error` if it is
set. -/
def executeCommand (spawn : String → Option SpawnError) (command : String) :
    Except ExecCommandFault Unit :=
  match spawn command with
  | none =>
      -- `(result.error as any).errno` with `result.error === undefined`:
      -- TypeError, thrown before the final check is reached.
      .error .typeError
  | some e =>
      let result :=
        if e.errno = some "ENOENT" then spawn (command ++ ".cmd") else some e
      match result with
      | some e2 => .error (.spawnError e2)
      | none => .ok ()

/-! ### Concrete fixtures -/

def buildAction : CommandLineAction := { actionName := "build", aid := 0 }

def buildAction2 : CommandLineAction := { actionName := "build", aid := 1 }

def greetAction : CommandLineAction := { actionName := "greet", aid := 2 }

def buildData : ICommandLineParserData :=
  { action := "build", values := [("verbose", .bool true)] }

def okEngine : Engine :=
  { processArgv := [], helpText := "usage: widget [-h] <command> ...",
    parseArgs := fun _ => .ok buildData,
    runAction := fun _ st => (st, .ok ()) }

def failEngine : Engine :=
  { okEngine with parseArgs := fun _ => .error (.exitError 2 "bad arguments") }

def helpEngine : Engine :=
  { okEngine with parseArgs := fun _ => .error (.exitError 0 "HELP PAGE") }

def zeroSignalEngine : Engine :=
  { okEngine with runAction := fun _ st => (st, .error (.exitError 0 "all done")) }

def widgetParser : CommandLineParser :=
  addAction (newParser "widget" "builds widgets") buildAction


/-! ### Helper lemmas -/

theorem findFirstAction_some {l : List CommandLineAction} {n : String}
    {a : CommandLineAction} (h : findFirstAction l n = some a) :
    a ∈ l ∧ a.actionName = n := by
  induction l with
  | nil => simp [findFirstAction] at h
  | cons b rest ih =>
      by_cases hb : b.actionName = n
      · simp [findFirstAction, hb] at h
        subst h
        exact ⟨List.mem_cons_self _ _, hb⟩
      · simp only [findFirstAction, if_neg hb] at h
        obtain ⟨hm, hn⟩ := ih h
        exact ⟨List.mem_cons_of_mem _ hm, hn⟩

theorem jsMapGet_set_self (m : List (String × CommandLineAction)) (k : String)
    (v : CommandLineAction) : jsMapGet (jsMapSet m k v) k = some v := by
  induction m with
  | nil => simp [jsMapSet, jsMapGet]
  | cons hd tl ih =>
      obtain ⟨k0, v0⟩ := hd
      by_cases h : k0 = k
      · simp [jsMapSet, jsMapGet, h]
      · simp [jsMapSet, jsMapGet, h, ih]

theorem jsMapGet_set_other (m : List (String × CommandLineAction))
    {k k' : String} (v : CommandLineAction) (h : k' ≠ k) :
    jsMapGet (jsMapSet m k v) k' = jsMapGet m k' := by
  induction m with
  | nil => simp [jsMapSet, jsMapGet, Ne.symm h]
  | cons hd tl ih =>
      obtain ⟨k0, v0⟩ := hd
      by_cases h0 : k0 = k
      · subst h0
        simp [jsMapSet, jsMapGet, Ne.symm h]
      · simp [jsMapSet, jsMapGet, h0, ih]

theorem executed_true_after (E : Engine) (p : CommandLineParser) (st : StdState)
    (a : Option (List String)) :
    (executeWithoutErrorHandling E p st a).1.executed = true := by
  by_cases h : p.executed
  · simp [executeWithoutErrorHandling, h]
  · simp only [Bool.not_eq_true] at h
    simp only [executeWithoutErrorHandling, h, Bool.false_eq_true, if_false]
    split
    · rfl
    · split
      · rfl
      · simp only [dispatchAndRun]
        split
        · split <;> rfl
        · split <;> rfl

theorem ewoe_of_executed (E : Engine) (p : CommandLineParser) (st : StdState)
    (a : Option (List String)) (h : p.executed = true) :
    executeWithoutErrorHandling E p st a = (p, st, .error (.ordinary alreadyExecutedMessage)) := by
  simp [executeWithoutErrorHandling, h]

theorem addActions_cons (p : CommandLineParser) (a : CommandLineAction)
    (l : List CommandLineAction) :
    addActions p (a :: l) = addActions (addAction p a) l := rfl

theorem addActions_actions (p : CommandLineParser) (l : List CommandLineAction) :
    (addActions p l).actions = p.actions ++ l := by
  induction l generalizing p with
  | nil => simp [addActions]
  | cons a rest ih => rw [addActions_cons, ih]; simp [addAction]

theorem addActions_byName (p : CommandLineParser) (l : List CommandLineAction) :
    (addActions p l).actionsByName
      = l.foldl (fun m a => jsMapSet m a.actionName a) p.actionsByName := by
  induction l generalizing p with
  | nil => rfl
  | cons a rest ih => rw [addActions_cons, ih]; rfl

theorem addActions_executed (p : CommandLineParser) (l : List CommandLineAction) :
    (addActions p l).executed = p.executed := by
  induction l generalizing p with
  | nil => rfl
  | cons a rest ih => rw [addActions_cons, ih]; rfl

theorem addActions_selectedAction (p : CommandLineParser) (l : List CommandLineAction) :
    (addActions p l).selectedAction = p.selectedAction := by
  induction l generalizing p with
  | nil => rfl
  | cons a rest ih => rw [addActions_cons, ih]; rfl

theorem foldSet_get_of_notin (l : List CommandLineAction)
    (m : List (String × CommandLineAction)) (k : String)
    (h : ∀ b ∈ l, b.actionName ≠ k) :
    jsMapGet (l.foldl (fun m a => jsMapSet m a.actionName a) m) k = jsMapGet m k := by
  induction l generalizing m with
  | nil => rfl
  | cons a rest ih =>
      rw [List.foldl_cons, ih _ (fun b hb => h b (List.mem_cons_of_mem _ hb))]
      exact jsMapGet_set_other _ _ (fun he => h a (List.mem_cons_self _ _) he.symm)

theorem foldSet_get_mem (l : List CommandLineAction)
    (m : List (String × CommandLineAction)) (a : CommandLineAction)
    (hnd : (l.map CommandLineAction.actionName).Nodup) (ha : a ∈ l) :
    jsMapGet (l.foldl (fun m b => jsMapSet m b.actionName b) m) a.actionName = some a := by
  induction l generalizing m with
  | nil => cases ha
  | cons b rest ih =>
      rw [List.foldl_cons]
      rw [List.map_cons, List.nodup_cons] at hnd
      rcases List.mem_cons.mp ha with rfl | ha'
      · have hne : ∀ c ∈ rest, c.actionName ≠ a.actionName := by
          intro c hc he
          exact hnd.1 (he ▸ List.mem_map_of_mem _ hc)
        rw [foldSet_get_of_notin rest _ _ hne, jsMapGet_set_self]
      · exact ih _ hnd.2 ha'

theorem ewoe_parse_ok (E : Engine) (p : CommandLineParser) (st : StdState)
    (args : List String) (data : ICommandLineParserData)
    (hex : p.executed = false) (hne : args ≠ [])
    (hp : E.parseArgs args = .ok data) :
    executeWithoutErrorHandling E p st (some args)
      = dispatchAndRun E { p with executed := true, globalData := some data } st data := by
  simp [executeWithoutErrorHandling, hex, resolveArgs, List.length_eq_zero, hne, hp]

theorem ewoe_parse_err (E : Engine) (p : CommandLineParser) (st : StdState)
    (args : List String) (e : JsError)
    (hex : p.executed = false) (hne : args ≠ [])
    (hp : E.parseArgs args = .error e) :
    executeWithoutErrorHandling E p st (some args)
      = ({ p with executed := true }, (catchClause st e).1, (catchClause st e).2) := by
  simp [executeWithoutErrorHandling, hex, resolveArgs, List.length_eq_zero, hne, hp]

theorem dispatchAndRun_found (E : Engine) (p2 : CommandLineParser) (st : StdState)
    (data : ICommandLineParserData) (a : CommandLineAction)
    (hf : findFirstAction p2.actions data.action = some a) :
    dispatchAndRun E p2 st data
      = ({ p2 with selectedAction := some { a with data := some data },
                   actions := injectFirst p2.actions data.action data },
         (E.runAction { a with data := some data } st).1,
         (E.runAction { a with data := some data } st).2) := by
  simp [dispatchAndRun, hf]

theorem dispatchAndRun_notfound (E : Engine) (p2 : CommandLineParser) (st : StdState)
    (data : ICommandLineParserData)
    (hf : findFirstAction p2.actions data.action = none)
    (hsel : p2.selectedAction = none) :
    dispatchAndRun E p2 st data = (p2, st, .error (.ordinary "Unrecognized action")) := by
  simp [dispatchAndRun, hf, hsel, catchClause]

theorem executeCatch_fst (p : CommandLineParser) (st : StdState)
    (r : Except JsError Unit) : (executeCatch p st r).1 = p := by
  rcases r with e | u
  · rcases e with ⟨c, m⟩ | m <;> rfl
  · rfl

theorem ewoe_dispatch_found (E : Engine) (p : CommandLineParser) (st : StdState)
    (args : List String) (data : ICommandLineParserData) (a : CommandLineAction)
    (hex : p.executed = false) (hne : args ≠ [])
    (hp : E.parseArgs args = .ok data)
    (hf : findFirstAction p.actions data.action = some a) :
    (executeWithoutErrorHandling E p st (some args)).1.selectedAction
        = some { a with data := some data } ∧
    (executeWithoutErrorHandling E p st (some args)).2.1
        = (E.runAction { a with data := some data } st).1 ∧
    (executeWithoutErrorHandling E p st (some args)).2.2
        = (E.runAction { a with data := some data } st).2 := by
  rw [ewoe_parse_ok E p st args data hex hne hp]
  have hf2 : findFirstAction
      ({ p with executed := true, globalData := some data } : CommandLineParser).actions
      data.action = some a := hf
  rw [dispatchAndRun_found E _ st data a hf2]
  exact ⟨rfl, rfl, rfl⟩

/-! ### Claim theorems -/

/-- C5: for every Parser on which `execute` is invoked with an empty argument
vector, `execute` resolves to `true`, top-level help is printed, no action is
run, and `selectedAction` remains unset. -/
theorem execute_empty_args_help (E : Engine) (p : CommandLineParser)
    (st : StdState) (argsOpt : Option (List String))
    (hex : p.executed = false) (hsel : p.selectedAction = none)
    (hargs : resolveArgs E argsOpt = []) :
    execute E p st argsOpt
      = ({ p with executed := true },
         { st with stdout := st.stdout ++ [E.helpText] }, true) ∧
    (execute E p st argsOpt).1.selectedAction = none := by
  have h1 : executeWithoutErrorHandling E p st argsOpt
      = ({ p with executed := true },
         { st with stdout := st.stdout ++ [E.helpText] }, .ok ()) := by
    simp [executeWithoutErrorHandling, hex, hargs]
  constructor
  · simp [execute, h1, executeCatch]
  · simp [execute, h1, executeCatch, hsel]

theorem execute_empty_args_help_witness :
    widgetParser.executed = false ∧ widgetParser.selectedAction = none ∧
    resolveArgs okEngine (some []) = [] ∧
    (execute okEngine widgetParser {} (some [])).2.2 = true ∧
    (execute okEngine widgetParser {} (some [])).2.1.stdout
      = ["usage: widget [-h] <command> ..."] ∧
    (execute okEngine widgetParser {} (some [])).1.selectedAction = none := by
  have h := execute_empty_args_help okEngine widgetParser {} (some []) rfl rfl rfl
  refine ⟨rfl, rfl, rfl, by rw [h.1], by rw [h.1]; rfl, h.2⟩

/-- C9: every call to `executeWithoutErrorHandling` leaves the `_executed`
flag set — the flag is set before the argument vector is examined, so the
empty-arguments help path and grammar failures also consume the instance —
and every call on a consumed instance rejects with the usage fault without
touching the parser or the process state. -/
theorem first_call_consumes_instance (E : Engine) (p : CommandLineParser)
    (st : StdState) (argsOpt : Option (List String)) :
    (executeWithoutErrorHandling E p st argsOpt).1.executed = true ∧
    ∀ (E2 : Engine) (st2 : StdState) (args2 : Option (List String)),
      executeWithoutErrorHandling E2 (executeWithoutErrorHandling E p st argsOpt).1 st2 args2
        = ((executeWithoutErrorHandling E p st argsOpt).1, st2,
           .error (.ordinary alreadyExecutedMessage)) := by
  refine ⟨executed_true_after E p st argsOpt, fun E2 st2 args2 => ?_⟩
  exact ewoe_of_executed E2 _ st2 args2 (executed_true_after E p st argsOpt)

/-- C2 counterexample: the second call through `execute` does not propagate
the usage fault to the caller — it resolves to `false`, and the fault has
been translated into the friendly red error line and exit code 1. -/
theorem second_execute_translated_counterexample :
    (execute okEngine (execute okEngine widgetParser {} (some ["build"])).1 {}
        (some ["build"])).2.2 = false ∧
    (execute okEngine (execute okEngine widgetParser {} (some ["build"])).1 {}
        (some ["build"])).2.1
      = { stderr := [colorsRed ("Error: " ++ alreadyExecutedMessage)],
          exitCode := some 1 } := by
  constructor <;> rfl

/-- C2 amended: a second call to `executeWithoutErrorHandling` always rejects
with the usage fault (which thus propagates to callers of that entry point);
a second call made through `execute` instead catches it, writes the formatted
`Error:` line to standard error, sets exit code 1 under the non-overwrite
rule, and resolves to `false`. -/
theorem second_call_usage_fault (E E2 : Engine) (p : CommandLineParser)
    (st st2 : StdState) (a a2 : Option (List String)) :
    executeWithoutErrorHandling E2 (executeWithoutErrorHandling E p st a).1 st2 a2
      = ((executeWithoutErrorHandling E p st a).1, st2,
         .error (.ordinary alreadyExecutedMessage)) ∧
    (execute E2 (executeWithoutErrorHandling E p st a).1 st2 a2).2.2 = false ∧
    (execute E2 (executeWithoutErrorHandling E p st a).1 st2 a2).2.1.stderr
      = st2.stderr ++ [colorsRed ("Error: " ++ jsTrim alreadyExecutedMessage)] ∧
    (execute E2 (executeWithoutErrorHandling E p st a).1 st2 a2).2.1.exitCode
      = (if jsTruthyCode st2.exitCode then st2.exitCode else some 1) := by
  have h2 := ewoe_of_executed E2 _ st2 a2 (executed_true_after E p st a)
  have hne : alreadyExecutedMessage ≠ "" := by decide
  refine ⟨h2, ?_, ?_, ?_⟩
  · simp [execute, h2, executeCatch, hne]
  · by_cases hc : jsTruthyCode st2.exitCode = true <;>
      simp [execute, h2, executeCatch, hne, hc]
  · by_cases hc : jsTruthyCode st2.exitCode = true <;>
      simp [execute, h2, executeCatch, hne, hc]

/-- C6 counterexample: registering a second action carrying an
already-registered name does not fail and does not leave the registry
unchanged — both actions end up in the ordered registry. -/
theorem addAction_duplicate_counterexample :
    (addAction (addAction (newParser "widget" "builds widgets") buildAction)
        buildAction2).actions
      = [buildAction, buildAction2] := rfl

/-- C6 amended: `addAction` performs no duplicate-name validation: a second
action with a colliding name is appended to the ordered registry as well (the
name-keyed map entry is overwritten); an action with a fresh name is appended
to the ordered registry. -/
theorem addAction_appends_without_validation (p : CommandLineParser)
    (a b : CommandLineAction) (_h : a.actionName = b.actionName) :
    (addAction (addAction p a) b).actions = p.actions ++ [a, b] ∧
    tryGetAction (addAction (addAction p a) b) b.actionName = some b ∧
    ∀ c : CommandLineAction, (addAction p c).actions = p.actions ++ [c] := by
  refine ⟨by simp [addAction], ?_, fun c => by simp [addAction]⟩
  simp only [addAction, tryGetAction]
  exact jsMapGet_set_self _ _ _

theorem addAction_appends_without_validation_witness :
    buildAction.actionName = buildAction2.actionName ∧
    (addAction (addAction (newParser "w" "d") buildAction) buildAction2).actions
      = [buildAction, buildAction2] ∧
    tryGetAction (addAction (addAction (newParser "w" "d") buildAction) buildAction2)
        buildAction2.actionName = some buildAction2 := by
  have h := addAction_appends_without_validation (newParser "w" "d")
    buildAction buildAction2 rfl
  exact ⟨rfl, h.1, h.2.1⟩

/-- C7: on a parser whose registered actions have pairwise distinct names,
`getAction` returns the registered action with the requested name, and for a
name that was never registered `getAction` throws the not-defined error while
`tryGetAction` returns `undefined`. -/
theorem getAction_exact_lookup (f d name : String) (l : List CommandLineAction)
    (hnd : (l.map CommandLineAction.actionName).Nodup) :
    (∀ a ∈ l, getAction (addActions (newParser f d) l) a.actionName = .ok a ∧
              tryGetAction (addActions (newParser f d) l) a.actionName = some a) ∧
    (name ∉ l.map CommandLineAction.actionName →
      tryGetAction (addActions (newParser f d) l) name = none ∧
      getAction (addActions (newParser f d) l) name
        = .error (.ordinary ("The action \"" ++ name ++ "\" was not defined"))) := by
  have hm : (addActions (newParser f d) l).actionsByName
      = l.foldl (fun m a => jsMapSet m a.actionName a) [] := addActions_byName _ _
  constructor
  · intro a ha
    have hv := foldSet_get_mem l [] a hnd ha
    constructor
    · simp [getAction, tryGetAction, hm, hv]
    · simp [tryGetAction, hm, hv]
  · intro hnotin
    have hne : ∀ b ∈ l, b.actionName ≠ name := fun b hb he =>
      hnotin (he ▸ List.mem_map_of_mem _ hb)
    have hv := foldSet_get_of_notin l [] name hne
    constructor
    · simp [tryGetAction, hm, hv, jsMapGet]
    · simp [getAction, tryGetAction, hm, hv, jsMapGet]

theorem getAction_exact_lookup_witness :
    ([buildAction, greetAction].map CommandLineAction.actionName).Nodup ∧
    getAction (addActions (newParser "w" "d") [buildAction, greetAction]) "greet"
      = .ok greetAction ∧
    tryGetAction (addActions (newParser "w" "d") [buildAction, greetAction]) "clean"
      = none ∧
    getAction (addActions (newParser "w" "d") [buildAction, greetAction]) "clean"
      = .error (.ordinary "The action \"clean\" was not defined") := by
  have hnd : ([buildAction, greetAction].map CommandLineAction.actionName).Nodup := by
    decide
  have h := getAction_exact_lookup "w" "d" "clean" [buildAction, greetAction] hnd
  have h1 := (h.1 greetAction (by decide)).1
  have h2 := h.2 (by decide)
  exact ⟨hnd, h1, h2.1, h2.2⟩

/-- C10: with two distinct actions registered under one name, lookup
(`tryGetAction` / `getAction`, backed by the map whose entry the second
registration overwrote) returns the last-registered action, while dispatch
(the linear scan with early break) selects the first-registered one, so the
two disagree about which action the duplicated name denotes. -/
theorem duplicate_name_lookup_dispatch_disagree (f d : String)
    (a b : CommandLineAction) (E : Engine) (st : StdState)
    (args : List String) (data : ICommandLineParserData)
    (hname : a.actionName = b.actionName) (haid : a.aid ≠ b.aid)
    (hargs : args ≠ []) (hparse : E.parseArgs args = .ok data)
    (hact : data.action = a.actionName) :
    tryGetAction (addActions (newParser f d) [a, b]) a.actionName = some b ∧
    getAction (addActions (newParser f d) [a, b]) a.actionName = .ok b ∧
    (executeWithoutErrorHandling E (addActions (newParser f d) [a, b]) st
        (some args)).1.selectedAction = some { a with data := some data } ∧
    ∀ sel, (executeWithoutErrorHandling E (addActions (newParser f d) [a, b]) st
        (some args)).1.selectedAction = some sel → sel.aid ≠ b.aid := by
  have hmap : tryGetAction (addActions (newParser f d) [a, b]) a.actionName = some b := by
    simp [addActions, addAction, newParser, tryGetAction, jsMapSet, jsMapGet, hname]
  have hex : (addActions (newParser f d) [a, b]).executed = false := by
    rw [addActions_executed]; rfl
  have hacts : (addActions (newParser f d) [a, b]).actions = [a, b] := by
    rw [addActions_actions]; rfl
  have hfind : findFirstAction (addActions (newParser f d) [a, b]).actions data.action
      = some a := by
    rw [hacts]
    simp [findFirstAction, hact.symm]
  have hsel := (ewoe_dispatch_found E _ st args data a hex hargs hparse hfind).1
  refine ⟨hmap, by simp [getAction, hmap], hsel, fun sel hs => ?_⟩
  rw [hsel] at hs
  injection hs with hs
  subst hs
  exact haid

theorem duplicate_name_lookup_dispatch_disagree_witness :
    buildAction.actionName = buildAction2.actionName ∧
    buildAction.aid ≠ buildAction2.aid ∧
    okEngine.parseArgs ["build"] = .ok buildData ∧
    buildData.action = buildAction.actionName ∧
    tryGetAction (addActions (newParser "w" "d") [buildAction, buildAction2])
        buildAction.actionName = some buildAction2 ∧
    (executeWithoutErrorHandling okEngine
        (addActions (newParser "w" "d") [buildAction, buildAction2]) {}
        (some ["build"])).1.selectedAction
      = some { buildAction with data := some buildData } := by
  have h := duplicate_name_lookup_dispatch_disagree "w" "d" buildAction buildAction2
    okEngine {} ["build"] buildData rfl (by decide) (by decide) rfl rfl
  exact ⟨rfl, by decide, rfl, rfl, h.1, h.2.2.1⟩

/-- C8 (code bug): `Utilities.executeCommand` evaluated at the three spawn
outcomes.  When the bare command spawns successfully (its result carries no
error), the code raises a TypeError by reading `.errno` off the undefined
`result.error` instead of returning normally; the ENOENT retry with the
`.cmd` variant works; a final result carrying a non-ENOENT error is thrown. -/
theorem executeCommand_crashes_on_successful_spawn :
    executeCommand (fun _ => none) "npm" = .error .typeError ∧
    executeCommand
        (fun c => if c = "git" then some { errno := some "ENOENT" } else none)
        "git" = .ok () ∧
    executeCommand
        (fun c => if c = "tsc" then some { errno := some "EACCES", eid := 7 } else none)
        "tsc" = .error (.spawnError { errno := some "EACCES", eid := 7 }) := by
  refine ⟨rfl, rfl, rfl⟩

/-- C1: `execute` never rejects and translates every settled outcome of
`executeWithoutErrorHandling`: fulfilment resolves to `true` with the state
untouched; rejection with a nonzero Exit Signal writes its message (if
present) to standard error, sets the process exit code to the signal's code
unless a truthy (nonzero) code is already set, and resolves to `false`;
rejection with any non-Exit-Signal fault writes the red formatted `Error:`
line to standard error, sets exit code 1 under the same non-overwrite rule,
and resolves to `false`.  Nothing is ever written to standard output by the
handler. -/
theorem execute_translates_all_faults (E : Engine) (p : CommandLineParser)
    (st : StdState) (argsOpt : Option (List String)) :
    ((executeWithoutErrorHandling E p st argsOpt).2.2 = .ok () →
        execute E p st argsOpt
          = ((executeWithoutErrorHandling E p st argsOpt).1,
             (executeWithoutErrorHandling E p st argsOpt).2.1, true)) ∧
    (∀ code msg,
        (executeWithoutErrorHandling E p st argsOpt).2.2 = .error (.exitError code msg) →
        code ≠ 0 →
        (execute E p st argsOpt).2.2 = false ∧
        (execute E p st argsOpt).1 = (executeWithoutErrorHandling E p st argsOpt).1 ∧
        (execute E p st argsOpt).2.1.stdout
          = (executeWithoutErrorHandling E p st argsOpt).2.1.stdout ∧
        (execute E p st argsOpt).2.1.stderr
          = (executeWithoutErrorHandling E p st argsOpt).2.1.stderr
            ++ (if msg = "" then [] else [msg]) ∧
        (execute E p st argsOpt).2.1.exitCode
          = (if jsTruthyCode (executeWithoutErrorHandling E p st argsOpt).2.1.exitCode
             then (executeWithoutErrorHandling E p st argsOpt).2.1.exitCode
             else some code)) ∧
    (∀ msg,
        (executeWithoutErrorHandling E p st argsOpt).2.2 = .error (.ordinary msg) →
        (execute E p st argsOpt).2.2 = false ∧
        (execute E p st argsOpt).1 = (executeWithoutErrorHandling E p st argsOpt).1 ∧
        (execute E p st argsOpt).2.1.stdout
          = (executeWithoutErrorHandling E p st argsOpt).2.1.stdout ∧
        (execute E p st argsOpt).2.1.stderr
          = (executeWithoutErrorHandling E p st argsOpt).2.1.stderr
            ++ [colorsRed ("Error: "
                ++ jsTrim (if msg = "" then "An unknown error occurred" else msg))] ∧
        (execute E p st argsOpt).2.1.exitCode
          = (if jsTruthyCode (executeWithoutErrorHandling E p st argsOpt).2.1.exitCode
             then (executeWithoutErrorHandling E p st argsOpt).2.1.exitCode
             else some 1)) := by
  rcases hx : executeWithoutErrorHandling E p st argsOpt with ⟨p1, st1, r⟩
  simp only [execute, hx]
  refine ⟨?_, ?_, ?_⟩
  · intro h
    simp [h, executeCatch]
  · intro code msg h hc
    subst h
    by_cases hm : msg = "" <;>
      by_cases hcc : jsTruthyCode st1.exitCode = true <;>
        simp [executeCatch, hm, hcc]
  · intro msg h
    subst h
    by_cases hm : msg = "" <;>
      by_cases hcc : jsTruthyCode st1.exitCode = true <;>
        simp [executeCatch, hm, hcc]

theorem execute_translates_all_faults_witness :
    (executeWithoutErrorHandling failEngine widgetParser {} (some ["oops"])).2.2
      = .error (.exitError 2 "bad arguments") ∧
    (2 : Int) ≠ 0 ∧
    (execute failEngine widgetParser {} (some ["oops"])).2.2 = false ∧
    (execute failEngine widgetParser {} (some ["oops"])).2.1.stderr
      = ["bad arguments"] ∧
    (execute failEngine widgetParser {} (some ["oops"])).2.1.exitCode = some 2 ∧
    (execute failEngine widgetParser {} (some ["oops"])).2.1.stdout = [] := by
  have h := (execute_translates_all_faults failEngine widgetParser {}
    (some ["oops"])).2.1 2 "bad arguments" rfl (by decide)
  refine ⟨rfl, by decide, h.1, ?_, ?_, ?_⟩
  · rw [h.2.2.2.1]; rfl
  · rw [h.2.2.2.2]; rfl
  · rw [h.2.2.1]; rfl

/-- C3 counterexample: a zero-code Exit Signal rejected by the selected
action's asynchronous body is not recovered: `executeWithoutErrorHandling`
rejects with it and nothing is written to standard output. -/
theorem zero_signal_from_action_body_rejects :
    (executeWithoutErrorHandling zeroSignalEngine widgetParser {}
        (some ["build"])).2.2 = .error (.exitError 0 "all done") ∧
    (executeWithoutErrorHandling zeroSignalEngine widgetParser {}
        (some ["build"])).2.1.stdout = [] := ⟨rfl, rfl⟩

/-- C3 amended: a zero-exit-code Exit Signal raised synchronously during the
parse/dispatch phase is treated as a successful early exit (message, if
present, to standard output; the call resolves); every other Exit Signal and
every ordinary fault of that phase rejects the call unchanged; and whatever
outcome the selected action's asynchronous body settles with — including a
zero-code Exit Signal — passes through as the call's outcome untouched. -/
theorem ewoe_fault_propagation (E : Engine) (p : CommandLineParser)
    (st : StdState) (args : List String)
    (hex : p.executed = false) (hne : args ≠ []) :
    (∀ msg, E.parseArgs args = .error (.exitError 0 msg) →
        (executeWithoutErrorHandling E p st (some args)).2.2 = .ok () ∧
        (executeWithoutErrorHandling E p st (some args)).2.1
          = (if msg ≠ "" then { st with stdout := st.stdout ++ [msg] } else st)) ∧
    (∀ code msg, E.parseArgs args = .error (.exitError code msg) → code ≠ 0 →
        executeWithoutErrorHandling E p st (some args)
          = ({ p with executed := true }, st, .error (.exitError code msg))) ∧
    (∀ msg, E.parseArgs args = .error (.ordinary msg) →
        executeWithoutErrorHandling E p st (some args)
          = ({ p with executed := true }, st, .error (.ordinary msg))) ∧
    (∀ data, E.parseArgs args = .ok data →
        findFirstAction p.actions data.action = none → p.selectedAction = none →
        (executeWithoutErrorHandling E p st (some args)).2.1 = st ∧
        (executeWithoutErrorHandling E p st (some args)).2.2
          = .error (.ordinary "Unrecognized action")) ∧
    (∀ data a, E.parseArgs args = .ok data →
        findFirstAction p.actions data.action = some a →
        (executeWithoutErrorHandling E p st (some args)).2.1
          = (E.runAction { a with data := some data } st).1 ∧
        (executeWithoutErrorHandling E p st (some args)).2.2
          = (E.runAction { a with data := some data } st).2) := by
  refine ⟨?_, ?_, ?_, ?_, ?_⟩
  · intro msg hp
    rw [ewoe_parse_err E p st args _ hex hne hp]
    simp [catchClause]
  · intro code msg hp hc
    rw [ewoe_parse_err E p st args _ hex hne hp]
    simp [catchClause, hc]
  · intro msg hp
    rw [ewoe_parse_err E p st args _ hex hne hp]
    simp [catchClause]
  · intro data hp hf hsel
    rw [ewoe_parse_ok E p st args data hex hne hp]
    have hf2 : findFirstAction
        ({ p with executed := true, globalData := some data } : CommandLineParser).actions
        data.action = none := hf
    have hsel2 : ({ p with executed := true, globalData := some data } :
        CommandLineParser).selectedAction = none := hsel
    rw [dispatchAndRun_notfound E _ st data hf2 hsel2]
    exact ⟨rfl, rfl⟩
  · intro data a hp hf
    exact (ewoe_dispatch_found E p st args data a hex hne hp hf).2

theorem ewoe_fault_propagation_witness :
    widgetParser.executed = false ∧ (["-h"] : List String) ≠ [] ∧
    helpEngine.parseArgs ["-h"] = .error (.exitError 0 "HELP PAGE") ∧
    (executeWithoutErrorHandling helpEngine widgetParser {} (some ["-h"])).2.2
      = .ok () ∧
    (executeWithoutErrorHandling helpEngine widgetParser {} (some ["-h"])).2.1.stdout
      = ["HELP PAGE"] := by
  have h := (ewoe_fault_propagation helpEngine widgetParser {} ["-h"]
    rfl (by decide)).1 "HELP PAGE" rfl
  refine ⟨rfl, by decide, rfl, h.1, ?_⟩
  rw [h.2]
  rfl

/-- C4: on a grammar-accepted input whose action-name token names a
registered action, after execution completes `selectedAction` is exactly the
first registered action bearing that name, with the parsed data injected, and
its flag-parameter handles report the values recorded in the parsed data. -/
theorem dispatch_selects_matching_action (E : Engine) (p : CommandLineParser)
    (st : StdState) (args : List String) (data : ICommandLineParserData)
    (a : CommandLineAction) (hex : p.executed = false) (hne : args ≠ [])
    (hp : E.parseArgs args = .ok data)
    (hf : findFirstAction p.actions data.action = some a) :
    (execute E p st (some args)).1.selectedAction
      = some { a with data := some data } ∧
    a ∈ p.actions ∧ a.actionName = data.action ∧
    (∀ name, flagParameterValue { a with data := some data } name
        = .ok (match lookupRaw data.values name with
               | some (.bool b) => b
               | _ => false)) := by
  have hsel := (ewoe_dispatch_found E p st args data a hex hne hp hf).1
  obtain ⟨hmem, hname⟩ := findFirstAction_some hf
  refine ⟨?_, hmem, hname, fun name => ?_⟩
  · rw [execute, executeCatch_fst]
    exact hsel
  · rcases hl : lookupRaw data.values name with _ | v
    · simp [flagParameterValue, hl]
    · cases v <;> simp [flagParameterValue, hl]

theorem dispatch_selects_matching_action_witness :
    widgetParser.executed = false ∧
    okEngine.parseArgs ["build", "--verbose"] = .ok buildData ∧
    findFirstAction widgetParser.actions buildData.action = some buildAction ∧
    (execute okEngine widgetParser {} (some ["build", "--verbose"])).1.selectedAction
      = some { buildAction with data := some buildData } ∧
    flagParameterValue { buildAction with data := some buildData } "verbose"
      = .ok true := by
  have h := dispatch_selects_matching_action okEngine widgetParser {}
    ["build", "--verbose"] buildData buildAction rfl (by decide) rfl rfl
  refine ⟨rfl, rfl, rfl, h.1, ?_⟩
  have hv := h.2.2.2 "verbose"
  rw [hv]
  rfl
